import Mathlib

/-!
# PhantomEx — formal model of the decision-cycle and ledger engine

A shallow embedding of the core of `backend/core/portfolio.py` and
`backend/core/agent.py`.  Python floats are modelled as exact rationals
(`ℚ`), Python dicts keyed by strings as association lists, and fallible
Python methods (which `raise`) as `Except`-returning functions.  Database
persistence is modelled as explicit state: the `agents.allowance` column
and the append-only `trades` table travel alongside the in-memory
`Portfolio` object in a `LedgerSt` record.
-/

namespace PhantomEx

/-! ## Association lists (Python `dict[str, ...]`)

Python dicts preserve insertion order: updating an existing key keeps its
position, inserting a new key appends.  `del` removes the key.  These three
helpers mirror exactly the dict operations the source uses. -/

/-- The `d.get(key)` / `d[key]` lookup. -/
def alookup {α : Type} : List (String × α) → String → Option α
  | [], _ => none
  | (k, v) :: rest, key => if k = key then some v else alookup rest key

/-- The `d[key] = v`: replace in place if present, else append. -/
def aset {α : Type} : List (String × α) → String → α → List (String × α)
  | [], key, v => [(key, v)]
  | (k, w) :: rest, key, v =>
      if k = key then (k, v) :: rest else (k, w) :: aset rest key v

/-- The `del d[key]` (removes every binding of the key; keys are unique in a dict). -/
def aerase {α : Type} : List (String × α) → String → List (String × α)
  | [], _ => []
  | (k, w) :: rest, key =>
      if k = key then aerase rest key else (k, w) :: aerase rest key

theorem alookup_aset_self {α : Type} (l : List (String × α)) (k : String) (v : α) :
    alookup (aset l k v) k = some v := by
  induction l with
  | nil => simp [aset, alookup]
  | cons hd tl ih =>
      obtain ⟨k', w⟩ := hd
      by_cases h : k' = k
      · simp [aset, alookup, h]
      · simp [aset, alookup, h, ih]

theorem aerase_aset_of_fresh {α : Type} (l : List (String × α)) (k : String) (v : α)
    (h : alookup l k = none) : aerase (aset l k v) k = l := by
  induction l with
  | nil => simp [aset, aerase]
  | cons hd tl ih =>
      obtain ⟨k', w⟩ := hd
      by_cases hk : k' = k
      · simp [alookup, hk] at h
      · simp [alookup, hk] at h
        simp [aset, aerase, hk, ih h]

theorem mem_aset {α : Type} {l : List (String × α)} {k : String} {v : α} {p : String × α}
    (h : p ∈ aset l k v) : p.2 = v ∨ p ∈ l := by
  induction l with
  | nil => simp [aset] at h; simp [h]
  | cons hd tl ih =>
      obtain ⟨k', w⟩ := hd
      by_cases hk : k' = k
      · simp [aset, hk] at h
        rcases h with h | h
        · left; simp [h]
        · right; simp [h]
      · simp [aset, hk] at h
        rcases h with h | h
        · right; simp [h]
        · rcases ih h with h' | h'
          · left; exact h'
          · right; simp [h']

theorem mem_aerase {α : Type} {l : List (String × α)} {k : String} {p : String × α}
    (h : p ∈ aerase l k) : p ∈ l := by
  induction l with
  | nil => simp [aerase] at h
  | cons hd tl ih =>
      obtain ⟨k', w⟩ := hd
      by_cases hk : k' = k
      · simp [aerase, hk] at h
        exact List.mem_cons_of_mem _ (ih h)
      · simp [aerase, hk] at h
        rcases h with h | h
        · simp [h]
        · exact List.mem_cons_of_mem _ (ih h)

theorem alookup_mem {α : Type} {l : List (String × α)} {k : String} {v : α}
    (h : alookup l k = some v) : (k, v) ∈ l := by
  induction l with
  | nil => simp [alookup] at h
  | cons hd tl ih =>
      obtain ⟨k', w⟩ := hd
      by_cases hk : k' = k
      · simp only [alookup, if_pos hk] at h
        simp only [Option.some.injEq] at h
        simp [hk, h]
      · simp only [alookup, if_neg hk] at h
        exact List.mem_cons_of_mem _ (ih h)

/-! ## Portfolio data model (`backend/core/portfolio.py`) -/

/-- One entry of `Portfolio._holdings`: the dict `{"quantity": ..., "avg_cost": ...}`. -/
structure Holding where
  quantity : ℚ
  avg_cost : ℚ
  deriving Repr, DecidableEq

/-- The in-memory part of a `Portfolio` object: `_cash` and `_holdings`. -/
structure PortfolioSt where
  cash : ℚ
  holdings : List (String × Holding)
  deriving Repr, DecidableEq

/-- A row of the `trades` table / the dict returned by `execute_trade`
(the shared timestamp is a string the model does not inspect, so it is
omitted from the record). -/
structure Trade where
  symbol : String
  side : String
  quantity : ℚ
  price : ℚ
  total : ℚ
  reasoning : String
  mode : String
  deriving Repr, DecidableEq

/-- The three `ValueError`s of `Portfolio.execute_trade` plus the one of
`Portfolio.deposit` (named as in the error taxonomy of the spec), and the
`ZeroDivisionError` the buy branch raises when `new_qty` lands on zero. -/
inductive TradeError where
  | insufficientFunds
  | insufficientHoldings
  | invalidSide
  | invalidAmount
  | zeroDivision
  deriving Repr, DecidableEq

/-- The `Portfolio.execute_trade` (in-memory part, lines 96–128): validates the
trade, mutates cash and holdings, and returns the trade record.  A `raise`
becomes an `Except.error` whose payload also carries the portfolio as the
raise leaves it: the three `ValueError`s fire before any mutation, so
their payload is the input state, but a buy of an already-held symbol
with `new_qty = existing.quantity + quantity = 0` (only reachable with a
negative quantity) raises `ZeroDivisionError` computing `new_avg` AFTER
`self._cash -= total` has run — its payload has the decremented cash and
the untouched holdings. -/
def executeTrade (st : PortfolioSt) (symbol side : String) (quantity price : ℚ)
    (reasoning mode : String) :
    Except (TradeError × PortfolioSt) (PortfolioSt × Trade) :=
  let total := quantity * price
  if side = "buy" then
    if total > st.cash then .error (.insufficientFunds, st)
    else
      match alookup st.holdings symbol with
      | some existing =>
          let newQty := existing.quantity + quantity
          if newQty = 0 then
            .error (.zeroDivision, { cash := st.cash - total, holdings := st.holdings })
          else
            let newAvg := (existing.avg_cost * existing.quantity + price * quantity) / newQty
            .ok ({ cash := st.cash - total,
                   holdings := aset st.holdings symbol ⟨newQty, newAvg⟩ },
                 { symbol := symbol, side := side, quantity := quantity, price := price,
                   total := total, reasoning := reasoning, mode := mode })
      | none =>
          .ok ({ cash := st.cash - total,
                 holdings := aset st.holdings symbol ⟨quantity, price⟩ },
               { symbol := symbol, side := side, quantity := quantity, price := price,
                 total := total, reasoning := reasoning, mode := mode })
  else if side = "sell" then
    match alookup st.holdings symbol with
    | none => .error (.insufficientHoldings, st)
    | some existing =>
        if existing.quantity < quantity then .error (.insufficientHoldings, st)
        else
          let newQty := existing.quantity - quantity
          let holdings' :=
            if newQty ≤ 0 then aerase st.holdings symbol
            else aset st.holdings symbol ⟨newQty, existing.avg_cost⟩
          .ok ({ cash := st.cash + total, holdings := holdings' },
               { symbol := symbol, side := side, quantity := quantity, price := price,
                 total := total, reasoning := reasoning, mode := mode })
  else .error (.invalidSide, st)

example :
    executeTrade ⟨100, []⟩ "BTC" "buy" 2 10 "" "paper"
      = .ok (⟨80, [("BTC", ⟨2, 10⟩)]⟩,
             ⟨"BTC", "buy", 2, 10, 20, "", "paper"⟩) := by
  simp [executeTrade, alookup, aset, String.reduceEq,
    show ¬((2 : ℚ) * 10 > 100) by norm_num]
  norm_num

example :
    executeTrade ⟨100, []⟩ "BTC" "sell" 1 10 "" "paper"
      = .error (.insufficientHoldings, ⟨100, []⟩) := by
  simp [executeTrade, alookup, String.reduceEq]

example :
    executeTrade ⟨0, [("BTC", ⟨1, 50⟩)]⟩ "BTC" "sell" (-5) 10 "" "paper"
      = .ok (⟨-50, [("BTC", ⟨6, 50⟩)]⟩,
             ⟨"BTC", "sell", -5, 10, -50, "", "paper"⟩) := by
  simp [executeTrade, alookup, aset, aerase, String.reduceEq,
    show ¬((1 : ℚ) < -5) by norm_num, show ¬((1 : ℚ) - -5 ≤ 0) by norm_num]
  norm_num

/-! ## Persistence-aware ledger state

`Portfolio` methods write through to SQLite inside the same call
(`execute_trade` appends the trade row, `deposit` bumps
`agents.allowance`).  `DBState` carries the two persisted pieces the
ledger reads back: the allowance and the append-only trade log. -/

/-- The persisted rows `Portfolio` reads: `agents.allowance` and the
`trades` table (append-only, in insertion order). -/
structure DBState where
  allowance : ℚ
  trades : List Trade
  deriving Repr, DecidableEq

/-- In-memory portfolio plus its backing rows. -/
structure LedgerSt where
  db : DBState
  port : PortfolioSt
  deriving Repr, DecidableEq

/-- The `Portfolio.deposit` (lines 85–94): rejects non-positive amounts, else
bumps `agents.allowance` in the DB and adds to in-memory cash. -/
def deposit (st : LedgerSt) (amount : ℚ) : Except TradeError LedgerSt :=
  if amount ≤ 0 then .error .invalidAmount
  else .ok { db := { st.db with allowance := st.db.allowance + amount },
             port := { st.port with cash := st.port.cash + amount } }

/-- The `Portfolio.execute_trade` including its DB writes: on success the trade
row is appended to the `trades` table (the holdings snapshot upsert/delete
is the `port.holdings` field itself). -/
def ledgerTrade (st : LedgerSt) (symbol side : String) (quantity price : ℚ)
    (reasoning mode : String) : Except (TradeError × PortfolioSt) (LedgerSt × Trade) :=
  match executeTrade st.port symbol side quantity price reasoning mode with
  | .error e => .error e
  | .ok (port', tr) =>
      .ok ({ db := { st.db with trades := st.db.trades ++ [tr] }, port := port' }, tr)

/-- The `Agent._persist_hold` (agent.py lines 204–211): appends a zero-value
`hold` row to the trade log; the portfolio is untouched. -/
def persistHold (st : LedgerSt) (reasoning : String) : LedgerSt :=
  { st with db := { st.db with trades :=
      st.db.trades ++ [{ symbol := "", side := "hold", quantity := 0, price := 0,
                         total := 0, reasoning := reasoning, mode := "paper" }] } }

/-- The cash-recomputation loop of `Portfolio._load` (lines 42–56): start
from `agents.allowance`, subtract buy totals, add sell totals, ignore any
other side (`hold` rows). -/
def reconstructCash (allowance : ℚ) (trades : List Trade) : ℚ :=
  trades.foldl
    (fun cash t =>
      if t.side = "buy" then cash - t.total
      else if t.side = "sell" then cash + t.total
      else cash)
    allowance

/-- The `Portfolio._load` (lines 23–56): holdings come from the `portfolios`
snapshot rows, cash is recomputed from the trade history. -/
def loadPortfolio (allowance : ℚ) (holdingsRows : List (String × Holding))
    (trades : List Trade) : PortfolioSt :=
  { cash := reconstructCash allowance trades, holdings := holdingsRows }

/-- The operations that mutate a ledger over its lifetime: deposits,
trades (from `Agent.execute_decision`) and persisted hold notes. -/
inductive LedgerOp where
  | deposit (amount : ℚ)
  | trade (symbol side : String) (quantity price : ℚ) (reasoning : String)
  | holdNote (reasoning : String)

/-- Apply one operation; a failed call leaves the tracked state unchanged.
This is exact for the three `ValueError`s (their `raise` precedes any
mutation).  The `ZeroDivisionError` failure does corrupt in-memory cash
in Python (see `executeTrade`), but it needs a negative quantity, which
lies outside every op domain the claims range over: C1 reads over
sequences of successful operations and C3 over `validOp` sequences. -/
def applyOp (st : LedgerSt) : LedgerOp → LedgerSt
  | .deposit a =>
      match deposit st a with
      | .ok st' => st'
      | .error _ => st
  | .trade symbol side q p r =>
      match ledgerTrade st symbol side q p r "paper" with
      | .ok (st', _) => st'
      | .error _ => st
  | .holdNote r => persistHold st r

def applyOps (st : LedgerSt) (ops : List LedgerOp) : LedgerSt :=
  ops.foldl applyOp st

/-- The state `AgentRegistry.create_agent` produces: a fresh agent row with
the given allowance, no trades; `Portfolio._load` then yields
`cash = allowance`, no holdings. -/
def initLedger (allowance : ℚ) : LedgerSt :=
  { db := { allowance := allowance, trades := [] },
    port := { cash := allowance, holdings := [] } }

example :
    (applyOps (initLedger 100) [.trade "BTC" "buy" 2 10 "", .deposit 50,
                                .trade "BTC" "sell" 1 10 ""]).port.cash = 140 := by
  simp [applyOps, applyOp, initLedger, ledgerTrade, deposit, executeTrade, alookup, aset,
    aerase, String.reduceEq,
    show ¬((2 : ℚ) * 10 > 100) by norm_num, show ¬((50 : ℚ) ≤ 0) by norm_num,
    show ¬((2 : ℚ) < 1) by norm_num, show ¬((2 : ℚ) - 1 ≤ 0) by norm_num]
  norm_num

/-! ## Cash refinement: incremental cash vs. `_load` reconstruction -/

/-- The in-memory cash agrees with what `Portfolio._load` would recompute
from the persisted allowance and trade log. -/
def cashConsistent (st : LedgerSt) : Prop :=
  st.port.cash = reconstructCash st.db.allowance st.db.trades

theorem reconstructCash_append (a : ℚ) (ts : List Trade) (t : Trade) :
    reconstructCash a (ts ++ [t])
      = (if t.side = "buy" then reconstructCash a ts - t.total
         else if t.side = "sell" then reconstructCash a ts + t.total
         else reconstructCash a ts) := by
  simp only [reconstructCash, List.foldl_append, List.foldl_cons, List.foldl_nil]

/-- Unfolding one step of the `_load` cash loop. -/
theorem reconstructCash_cons (c : ℚ) (t : Trade) (ts : List Trade) :
    reconstructCash c (t :: ts)
      = reconstructCash
          (if t.side = "buy" then c - t.total
           else if t.side = "sell" then c + t.total else c) ts := rfl

theorem reconstructCash_add (ts : List Trade) (a b : ℚ) :
    reconstructCash (a + b) ts = reconstructCash a ts + b := by
  induction ts generalizing a with
  | nil => rfl
  | cons t ts ih =>
      rw [reconstructCash_cons, reconstructCash_cons]
      by_cases hb : t.side = "buy"
      · rw [if_pos hb, if_pos hb, show a + b - t.total = a - t.total + b by ring]
        exact ih _
      · by_cases hs : t.side = "sell"
        · rw [if_neg hb, if_neg hb, if_pos hs, if_pos hs,
            show a + b + t.total = a + t.total + b by ring]
          exact ih _
        · rw [if_neg hb, if_neg hb, if_neg hs, if_neg hs]
          exact ih _

/-- Successful `execute_trade` calls have the side they were given, total
`quantity × price`, and move cash down (buy) or up (sell) by that total. -/
theorem executeTrade_ok_cash (st : PortfolioSt) (symbol side : String) (q p : ℚ)
    (r m : String) (port' : PortfolioSt) (tr : Trade)
    (h : executeTrade st symbol side q p r m = .ok (port', tr)) :
    tr.side = side ∧ tr.total = q * p ∧
    ((side = "buy" ∧ port'.cash = st.cash - q * p) ∨
     (side = "sell" ∧ port'.cash = st.cash + q * p)) := by
  simp only [executeTrade] at h
  by_cases hbuy : side = "buy"
  · rw [if_pos hbuy] at h
    by_cases hf : q * p > st.cash
    · rw [if_pos hf] at h
      exact absurd h (by simp)
    · rw [if_neg hf] at h
      cases halo : alookup st.holdings symbol with
      | none =>
          simp only [halo, Except.ok.injEq, Prod.mk.injEq] at h
          obtain ⟨hport, htr⟩ := h
          subst hport; subst htr
          exact ⟨rfl, rfl, Or.inl ⟨hbuy, rfl⟩⟩
      | some existing =>
          simp only [halo] at h
          by_cases hz : existing.quantity + q = 0
          · rw [if_pos hz] at h
            exact absurd h (by simp)
          · rw [if_neg hz] at h
            simp only [Except.ok.injEq, Prod.mk.injEq] at h
            obtain ⟨hport, htr⟩ := h
            subst hport; subst htr
            exact ⟨rfl, rfl, Or.inl ⟨hbuy, rfl⟩⟩
  · by_cases hsell : side = "sell"
    · rw [if_neg hbuy, if_pos hsell] at h
      cases halo : alookup st.holdings symbol with
      | none =>
          simp only [halo] at h
          exact absurd h (by simp)
      | some existing =>
          simp only [halo] at h
          by_cases hq : existing.quantity < q
          · rw [if_pos hq] at h
            exact absurd h (by simp)
          · rw [if_neg hq] at h
            simp only [Except.ok.injEq, Prod.mk.injEq] at h
            obtain ⟨hport, htr⟩ := h
            subst hport; subst htr
            exact ⟨rfl, rfl, Or.inr ⟨hsell, rfl⟩⟩
    · rw [if_neg hbuy, if_neg hsell] at h
      exact absurd h (by simp)

theorem cashConsistent_applyOp (st : LedgerSt) (op : LedgerOp)
    (h : cashConsistent st) : cashConsistent (applyOp st op) := by
  cases op with
  | deposit a =>
      simp only [applyOp]
      by_cases ha : a ≤ 0
      · simp only [deposit, if_pos ha]
        exact h
      · simp only [deposit, if_neg ha]
        show st.port.cash + a = reconstructCash (st.db.allowance + a) st.db.trades
        rw [reconstructCash_add, ← h]
  | trade symbol side q p r =>
      simp only [applyOp, ledgerTrade]
      cases hex : executeTrade st.port symbol side q p r "paper" with
      | error e => simp only [hex]; exact h
      | ok res =>
          obtain ⟨port', tr⟩ := res
          obtain ⟨hside, htotal, hcase⟩ := executeTrade_ok_cash _ _ _ _ _ _ _ _ _ hex
          simp only [hex]
          show port'.cash = reconstructCash st.db.allowance (st.db.trades ++ [tr])
          rw [reconstructCash_append, hside, htotal, ← h]
          rcases hcase with ⟨hb, hc⟩ | ⟨hs, hc⟩
          · rw [hb, hc, if_pos rfl]
          · rw [hs, hc, if_neg (by decide : ¬("sell" = "buy")), if_pos rfl]
  | holdNote r =>
      simp only [applyOp, persistHold]
      show st.port.cash = reconstructCash st.db.allowance (st.db.trades ++ [_])
      rw [reconstructCash_append]
      simp only [String.reduceEq, if_false]
      exact h

theorem cashConsistent_applyOps (st : LedgerSt) (ops : List LedgerOp)
    (h : cashConsistent st) : cashConsistent (applyOps st ops) := by
  induction ops generalizing st with
  | nil => exact h
  | cons op ops ih =>
      simp only [applyOps, List.foldl_cons]
      exact ih _ (cashConsistent_applyOp _ _ h)

theorem reconstructCash_eq_sums (ts : List Trade) (a : ℚ) :
    reconstructCash a ts
      = a + ((ts.filter fun t => t.side = "sell").map Trade.total).sum
          - ((ts.filter fun t => t.side = "buy").map Trade.total).sum := by
  induction ts generalizing a with
  | nil => simp [reconstructCash]
  | cons t ts ih =>
      rw [reconstructCash_cons]
      by_cases hb : t.side = "buy"
      · rw [if_pos hb, ih]
        simp only [List.filter_cons, hb, String.reduceEq, decide_True, decide_False,
          Bool.false_eq_true, if_true, if_false, List.map_cons, List.sum_cons]
        ring
      · by_cases hs : t.side = "sell"
        · rw [if_neg hb, if_pos hs, ih]
          simp only [List.filter_cons, hs, hb, String.reduceEq, decide_True, decide_False,
            Bool.false_eq_true, if_true, if_false, List.map_cons, List.sum_cons]
          ring
        · rw [if_neg hb, if_neg hs, ih]
          simp only [List.filter_cons, decide_eq_true_eq, hs, hb, if_false]

/-! ## Solvency invariant machinery -/

/-- The ledger invariant stated in the spec: cash never negative, and every holding
present in the map has strictly positive quantity. -/
def solvent (st : PortfolioSt) : Prop :=
  0 ≤ st.cash ∧ ∀ p ∈ st.holdings, 0 < (Prod.snd p).quantity

instance (st : PortfolioSt) : Decidable (solvent st) := by
  unfold solvent; infer_instance

/-- The conditions under which the system actually invokes the ledger:
`Agent.execute_decision` guards `quantity <= 0` away and only passes a
truthy feed price, so the trade quantities reaching `execute_trade` are
positive and the prices non-negative. -/
def validOp : LedgerOp → Prop
  | .deposit _ => True
  | .trade _ _ q p _ => 0 < q ∧ 0 ≤ p
  | .holdNote _ => True

theorem solvent_executeTrade (st : PortfolioSt) (symbol side : String) (q p : ℚ)
    (r m : String) (port' : PortfolioSt) (tr : Trade)
    (hs : solvent st) (hq : 0 < q) (hp : 0 ≤ p)
    (h : executeTrade st symbol side q p r m = .ok (port', tr)) :
    solvent port' := by
  obtain ⟨hcash, hpos⟩ := hs
  simp only [executeTrade] at h
  by_cases hbuy : side = "buy"
  · rw [if_pos hbuy] at h
    by_cases hf : q * p > st.cash
    · rw [if_pos hf] at h
      exact absurd h (by simp)
    · rw [if_neg hf] at h
      cases halo : alookup st.holdings symbol with
      | some existing =>
          simp only [halo] at h
          by_cases hz : existing.quantity + q = 0
          · rw [if_pos hz] at h
            exact absurd h (by simp)
          · rw [if_neg hz] at h
            simp only [Except.ok.injEq, Prod.mk.injEq] at h
            obtain ⟨hport, htr⟩ := h
            subst hport
            constructor
            · simpa using not_lt.mp hf
            · intro entry hmem
              simp only at hmem
              rcases mem_aset hmem with he | he
              · rw [he]
                have := hpos _ (alookup_mem halo)
                simp only
                exact add_pos this hq
              · exact hpos _ he
      | none =>
          simp only [halo, Except.ok.injEq, Prod.mk.injEq] at h
          obtain ⟨hport, htr⟩ := h
          subst hport
          constructor
          · simpa using not_lt.mp hf
          · intro entry hmem
            simp only at hmem
            rcases mem_aset hmem with he | he
            · rw [he]; exact hq
            · exact hpos _ he
  · by_cases hsell : side = "sell"
    · rw [if_neg hbuy, if_pos hsell] at h
      cases halo : alookup st.holdings symbol with
      | none =>
          simp only [halo] at h
          exact absurd h (by simp)
      | some existing =>
          simp only [halo] at h
          by_cases hlt : existing.quantity < q
          · rw [if_pos hlt] at h
            exact absurd h (by simp)
          · rw [if_neg hlt] at h
            simp only [Except.ok.injEq, Prod.mk.injEq] at h
            obtain ⟨hport, htr⟩ := h
            subst hport
            constructor
            · have : 0 ≤ q * p := mul_nonneg hq.le hp
              simpa using add_nonneg hcash this
            · intro entry hmem
              simp only at hmem
              by_cases hz : existing.quantity - q ≤ 0
              · rw [if_pos hz] at hmem
                exact hpos _ (mem_aerase hmem)
              · rw [if_neg hz] at hmem
                rcases mem_aset hmem with he | he
                · rw [he]
                  simpa using not_le.mp hz
                · exact hpos _ he
    · rw [if_neg hbuy, if_neg hsell] at h
      exact absurd h (by simp)

theorem solvent_applyOp (st : LedgerSt) (op : LedgerOp)
    (hs : solvent st.port) (hv : validOp op) : solvent (applyOp st op).port := by
  cases op with
  | deposit a =>
      simp only [applyOp]
      by_cases ha : a ≤ 0
      · simp only [deposit, if_pos ha]
        exact hs
      · simp only [deposit, if_neg ha]
        obtain ⟨hcash, hpos⟩ := hs
        exact ⟨add_nonneg hcash (not_le.mp ha).le, hpos⟩
  | trade symbol side q p r =>
      simp only [applyOp, ledgerTrade]
      obtain ⟨hq, hp⟩ := hv
      cases hex : executeTrade st.port symbol side q p r "paper" with
      | error e => simp only [hex]; exact hs
      | ok res =>
          obtain ⟨port', tr⟩ := res
          simp only [hex]
          exact solvent_executeTrade _ _ _ _ _ _ _ _ _ hs hq hp hex
  | holdNote r =>
      simp only [applyOp, persistHold]
      exact hs

/-! ## Claims C1–C5: the ledger -/

/-- C1: for every sequence of successful `execute_trade` calls, deposits
and hold notes, the incrementally maintained cash equals the cash
`Portfolio._load` recomputes from the persisted allowance and trade log,
which in turn is `allowance + Σ sell.total − Σ buy.total`. -/
theorem C1_cash_incremental_eq_reconstructed (allowance : ℚ) (ops : List LedgerOp) :
    (applyOps (initLedger allowance) ops).port.cash
        = reconstructCash (applyOps (initLedger allowance) ops).db.allowance
            (applyOps (initLedger allowance) ops).db.trades
    ∧ (applyOps (initLedger allowance) ops).port.cash
        = (applyOps (initLedger allowance) ops).db.allowance
          + (((applyOps (initLedger allowance) ops).db.trades.filter
                (fun t => t.side = "sell")).map Trade.total).sum
          - (((applyOps (initLedger allowance) ops).db.trades.filter
                (fun t => t.side = "buy")).map Trade.total).sum
    ∧ ∀ rows, (loadPortfolio (applyOps (initLedger allowance) ops).db.allowance rows
          (applyOps (initLedger allowance) ops).db.trades).cash
        = (applyOps (initLedger allowance) ops).port.cash := by
  have h0 : cashConsistent (initLedger allowance) := rfl
  have h := cashConsistent_applyOps _ ops h0
  exact ⟨h, by rw [h, reconstructCash_eq_sums], fun rows => h.symm⟩

/-- C2 counterexample: both the failure/validation biconditional and the
no-mutation-on-failure part are false of the code.  From
`{cash 100, BTC: quantity 1 @ 50}`, `execute_trade("BTC", "buy", -1, 10)`
has `total = -10 ≤ 100`, so by the claim it should succeed; instead the
code passes the funds check, runs `self._cash -= total` (cash becomes
110), then raises `ZeroDivisionError` computing `new_avg` with
`new_qty = 1 + (-1) = 0` — a failure outside the three claimed
conditions, and one that leaves cash mutated (110 ≠ 100). -/
theorem C2_counterexample :
    ((-1 : ℚ) * 10 ≤ 100) ∧
    executeTrade ⟨100, [("BTC", ⟨1, 50⟩)]⟩ "BTC" "buy" (-1) 10 "" "paper"
      = .error (.zeroDivision, ⟨110, [("BTC", ⟨1, 50⟩)]⟩) ∧
    (110 : ℚ) ≠ 100 := by
  refine ⟨by norm_num, ?_, by norm_num⟩
  simp [executeTrade, alookup, String.reduceEq,
    show ¬((-1 : ℚ) * 10 > 100) by norm_num,
    show ((1 : ℚ) + -1 = 0) by norm_num]
  norm_num

/-- C2 (amended): `execute_trade` raises `InsufficientFunds` exactly on a
buy with `total > cash`, `InsufficientHoldings` exactly on a sell of an
unheld symbol or of more than the held quantity, and `InvalidSide` on any
other side; these validation failures raise before any mutation, so they
leave cash and holdings unchanged (the error payload is the input state).
One further failure exists: a buy of an already-held symbol whose
quantity is exactly the negated held quantity passes the funds check,
decrements cash, and only then raises `ZeroDivisionError` — that failure
leaves cash already mutated.  Every other buy with `total ≤ cash` and
every sell of at most the held quantity succeeds. -/
theorem C2_executeTrade_validation (st : PortfolioSt) (symbol side : String)
    (q p : ℚ) (r : String) :
    (side = "buy" → q * p > st.cash →
        executeTrade st symbol side q p r "paper"
          = .error (.insufficientFunds, st)) ∧
    (side = "buy" → q * p ≤ st.cash → alookup st.holdings symbol = none →
        (executeTrade st symbol side q p r "paper").isOk = true) ∧
    (∀ existing, side = "buy" → q * p ≤ st.cash →
        alookup st.holdings symbol = some existing →
        existing.quantity + q ≠ 0 →
        (executeTrade st symbol side q p r "paper").isOk = true) ∧
    (∀ existing, side = "buy" → q * p ≤ st.cash →
        alookup st.holdings symbol = some existing →
        existing.quantity + q = 0 →
        executeTrade st symbol side q p r "paper"
          = .error (.zeroDivision,
              { cash := st.cash - q * p, holdings := st.holdings })) ∧
    (side = "sell" → alookup st.holdings symbol = none →
        executeTrade st symbol side q p r "paper"
          = .error (.insufficientHoldings, st)) ∧
    (∀ existing, side = "sell" → alookup st.holdings symbol = some existing →
        existing.quantity < q →
        executeTrade st symbol side q p r "paper"
          = .error (.insufficientHoldings, st)) ∧
    (∀ existing, side = "sell" → alookup st.holdings symbol = some existing →
        q ≤ existing.quantity →
        (executeTrade st symbol side q p r "paper").isOk = true) ∧
    (side ≠ "buy" → side ≠ "sell" →
        executeTrade st symbol side q p r "paper"
          = .error (.invalidSide, st)) := by
  refine ⟨?_, ?_, ?_, ?_, ?_, ?_, ?_, ?_⟩
  · intro hside hf
    simp only [executeTrade, if_pos hside, if_pos hf]
  · intro hside hf hfresh
    simp only [executeTrade, if_pos hside, if_neg (not_lt.mpr hf), hfresh]
    rfl
  · intro existing hside hf halo hz
    simp only [executeTrade, if_pos hside, if_neg (not_lt.mpr hf), halo, if_neg hz]
    rfl
  · intro existing hside hf halo hz
    simp only [executeTrade, if_pos hside, if_neg (not_lt.mpr hf), halo, if_pos hz]
  · intro hside halo
    simp only [executeTrade, hside, String.reduceEq, if_false, if_true, halo]
  · intro existing hside halo hlt
    simp only [executeTrade, hside, String.reduceEq, if_false, if_true, halo, if_pos hlt]
  · intro existing hside halo hle
    simp only [executeTrade, hside, String.reduceEq, if_false, if_true, halo,
      if_neg (not_lt.mpr hle)]
    rfl
  · intro hb hs
    simp only [executeTrade, if_neg hb, if_neg hs]

/-- C2 witness: the §8 examples from the spec — buy 0.2 BTC @ 60000 with
cash 10000 fails `InsufficientFunds` leaving the state untouched, sell
0.02 BTC holding 0.01 fails `InsufficientHoldings`, a bogus side fails
`InvalidSide` — plus the divergent case: buy −1 BTC holding 1 fails
`ZeroDivisionError` with cash already decremented. -/
theorem C2_executeTrade_validation_witness :
    executeTrade ⟨10000, []⟩ "BTC" "buy" (2/10) 60000 "" "paper"
      = .error (.insufficientFunds, ⟨10000, []⟩) ∧
    executeTrade ⟨100, [("BTC", ⟨1, 50⟩)]⟩ "BTC" "buy" (-1) 10 "" "paper"
      = .error (.zeroDivision, ⟨100 - (-1) * 10, [("BTC", ⟨1, 50⟩)]⟩) ∧
    executeTrade ⟨10000, [("BTC", ⟨1/100, 50000⟩)]⟩ "BTC" "sell" (2/100) 50000 "" "paper"
      = .error (.insufficientHoldings, ⟨10000, [("BTC", ⟨1/100, 50000⟩)]⟩) ∧
    executeTrade ⟨10000, []⟩ "BTC" "short" 1 1 "" "paper"
      = .error (.invalidSide, ⟨10000, []⟩) := by
  refine ⟨?_, ?_, ?_, ?_⟩
  · exact (C2_executeTrade_validation ⟨10000, []⟩ "BTC" "buy" (2/10) 60000 "").1
      rfl (by norm_num)
  · exact (C2_executeTrade_validation ⟨100, [("BTC", ⟨1, 50⟩)]⟩ "BTC" "buy"
      (-1) 10 "").2.2.2.1 ⟨1, 50⟩ rfl (by norm_num) (by simp [alookup]) (by norm_num)
  · exact (C2_executeTrade_validation ⟨10000, [("BTC", ⟨1/100, 50000⟩)]⟩ "BTC" "sell"
      (2/100) 50000 "").2.2.2.2.2.1 ⟨1/100, 50000⟩ rfl (by simp [alookup]) (by norm_num)
  · exact (C2_executeTrade_validation ⟨10000, []⟩ "BTC" "short" 1 1 "").2.2.2.2.2.2.2
      (by decide) (by decide)

/-- C3 counterexample: `execute_trade` never checks the sign of
`quantity`, so from the solvent state `{cash = 0, BTC: 1}` a sell of
quantity −5 at price 10 passes validation (`1 < −5` is false) and drives
cash to −50, violating `cash ≥ 0`. -/
theorem C3_counterexample :
    solvent ⟨0, [("BTC", ⟨1, 50⟩)]⟩ ∧
    (executeTrade ⟨0, [("BTC", ⟨1, 50⟩)]⟩ "BTC" "sell" (-5) 10 "" "paper").isOk = true ∧
    ¬ solvent (applyOp ⟨⟨0, []⟩, ⟨0, [("BTC", ⟨1, 50⟩)]⟩⟩
        (.trade "BTC" "sell" (-5) 10 "")).port := by
  refine ⟨⟨le_refl 0, ?_⟩, ?_, ?_⟩
  · intro x hx
    simp only [List.mem_singleton] at hx
    rw [hx]
    norm_num
  · simp [executeTrade, alookup, String.reduceEq, Except.isOk, Except.toBool,
      show ¬((1 : ℚ) < -5) by norm_num, show ¬((1 : ℚ) + 5 ≤ 0) by norm_num]
  · intro hsol
    have hc := hsol.1
    simp [applyOp, ledgerTrade, executeTrade, alookup, aset, String.reduceEq,
      show ¬((1 : ℚ) < -5) by norm_num, show ¬((1 : ℚ) + 5 ≤ 0) by norm_num] at hc
    norm_num at hc

/-- C3 (amended): for operations with positive quantity and non-negative
price — which is what `Agent.execute_decision` guarantees before calling
the ledger — every sequence of loads/deposits/trades preserves the
solvency invariant: cash stays ≥ 0 and every holding kept in the map has
strictly positive quantity (a holding reaching 0 is removed). -/
theorem C3_solvency_invariant (st : LedgerSt) (ops : List LedgerOp)
    (hs : solvent st.port) (hv : ∀ op ∈ ops, validOp op) :
    solvent (applyOps st ops).port := by
  induction ops generalizing st with
  | nil => exact hs
  | cons op ops ih =>
      have h1 : solvent (applyOp st op).port :=
        solvent_applyOp _ _ hs (hv _ (List.mem_cons_self _ _))
      exact ih _ h1 (fun o ho => hv _ (List.mem_cons_of_mem _ ho))

/-- C3 witness: a concrete valid history — deposit, an affordable buy, a
full sell, a hold note — keeps the ledger solvent. -/
theorem C3_solvency_invariant_witness :
    solvent (applyOps (initLedger 10000)
      [.deposit 500, .trade "BTC" "buy" 1 6000 "", .trade "BTC" "sell" 1 6000 "",
       .holdNote "no clear signal"]).port := by
  refine C3_solvency_invariant (initLedger 10000) _
    ⟨by norm_num [initLedger], ?_⟩ ?_
  · intro x hx
    simp [initLedger] at hx
  · intro op hop
    simp only [List.mem_cons, List.not_mem_nil, or_false] at hop
    rcases hop with h | h | h | h <;> subst h <;> simp [validOp]

/-- C4: two successive successful buys of a freshly-held symbol leave the
holding with quantity `q1 + q2` and average cost
`(q1·p1 + q2·p2) / (q1 + q2)`; the first buy alone sets `avg_cost = p1`. -/
theorem C4_weighted_average_cost (st : PortfolioSt) (symbol : String)
    (q1 p1 q2 p2 : ℚ) (r1 m1 r2 m2 : String)
    (hfresh : alookup st.holdings symbol = none)
    (hq1 : 0 < q1) (hq2 : 0 < q2)
    (h1 : q1 * p1 ≤ st.cash) (h2 : q2 * p2 ≤ st.cash - q1 * p1) :
    ∃ st1 tr1 st2 tr2,
      executeTrade st symbol "buy" q1 p1 r1 m1 = .ok (st1, tr1) ∧
      alookup st1.holdings symbol = some ⟨q1, p1⟩ ∧
      executeTrade st1 symbol "buy" q2 p2 r2 m2 = .ok (st2, tr2) ∧
      alookup st2.holdings symbol
        = some ⟨q1 + q2, (q1 * p1 + q2 * p2) / (q1 + q2)⟩ := by
  refine ⟨⟨st.cash - q1 * p1, aset st.holdings symbol ⟨q1, p1⟩⟩,
    ⟨symbol, "buy", q1, p1, q1 * p1, r1, m1⟩,
    ⟨(st.cash - q1 * p1) - q2 * p2,
      aset (aset st.holdings symbol ⟨q1, p1⟩) symbol
        ⟨q1 + q2, (p1 * q1 + p2 * q2) / (q1 + q2)⟩⟩,
    ⟨symbol, "buy", q2, p2, q2 * p2, r2, m2⟩, ?_, ?_, ?_, ?_⟩
  · simp only [executeTrade, String.reduceEq, if_true, if_neg (not_lt.mpr h1), hfresh]
  · exact alookup_aset_self _ _ _
  · simp only [executeTrade, String.reduceEq, if_true, alookup_aset_self]
    rw [if_neg (not_lt.mpr h2), if_neg (add_pos hq1 hq2).ne']
  · rw [alookup_aset_self]
    congr 1
    simp only [Holding.mk.injEq]
    exact ⟨trivial, by ring⟩

/-- C4 witness: with cash 100, buying 1 @ 10 then 3 @ 20 yields a BTC
holding of 4 coins at average cost 70/4 = 17.5. -/
theorem C4_weighted_average_cost_witness :
    ∃ st1 tr1 st2 tr2,
      executeTrade ⟨100, []⟩ "BTC" "buy" 1 10 "" "paper" = .ok (st1, tr1) ∧
      alookup st1.holdings "BTC" = some ⟨1, 10⟩ ∧
      executeTrade st1 "BTC" "buy" 3 20 "" "paper" = .ok (st2, tr2) ∧
      alookup st2.holdings "BTC"
        = some ⟨1 + 3, (1 * 10 + 3 * 20) / (1 + 3)⟩ :=
  C4_weighted_average_cost ⟨100, []⟩ "BTC" 1 10 3 20 "" "paper" "" "paper"
    rfl (by norm_num) (by norm_num) (by norm_num) (by norm_num)

/-- C5: a successful buy of a freshly-held symbol followed by a sell of
the same quantity at the same price restores cash exactly and removes the
holding from the map entirely. -/
theorem C5_buy_sell_roundtrip (st : PortfolioSt) (symbol : String) (q p : ℚ)
    (r1 m1 r2 m2 : String)
    (hfresh : alookup st.holdings symbol = none)
    (hafford : q * p ≤ st.cash) :
    ∃ st1 tr1 st2 tr2,
      executeTrade st symbol "buy" q p r1 m1 = .ok (st1, tr1) ∧
      executeTrade st1 symbol "sell" q p r2 m2 = .ok (st2, tr2) ∧
      st2.cash = st.cash ∧ st2.holdings = st.holdings ∧
      alookup st2.holdings symbol = none := by
  refine ⟨⟨st.cash - q * p, aset st.holdings symbol ⟨q, p⟩⟩,
    ⟨symbol, "buy", q, p, q * p, r1, m1⟩,
    ⟨(st.cash - q * p) + q * p, st.holdings⟩,
    ⟨symbol, "sell", q, p, q * p, r2, m2⟩, ?_, ?_, by ring, rfl, hfresh⟩
  · simp only [executeTrade, String.reduceEq, if_true, if_neg (not_lt.mpr hafford), hfresh]
  · simp only [executeTrade, String.reduceEq, if_false, if_true, alookup_aset_self,
      if_neg (lt_irrefl q), if_pos (by norm_num : q - q ≤ (0 : ℚ)),
      aerase_aset_of_fresh _ _ _ hfresh]

/-- C5 witness: buy 2 @ 10 from cash 100 then sell 2 @ 10 — cash is 100
again and the BTC holding is gone. -/
theorem C5_buy_sell_roundtrip_witness :
    ∃ st1 tr1 st2 tr2,
      executeTrade ⟨100, []⟩ "BTC" "buy" 2 10 "" "paper" = .ok (st1, tr1) ∧
      executeTrade st1 "BTC" "sell" 2 10 "" "paper" = .ok (st2, tr2) ∧
      st2.cash = (⟨100, []⟩ : PortfolioSt).cash ∧
      st2.holdings = (⟨100, []⟩ : PortfolioSt).holdings ∧
      alookup st2.holdings "BTC" = none :=
  C5_buy_sell_roundtrip ⟨100, []⟩ "BTC" 2 10 "" "paper" "" "paper" rfl (by norm_num)

/-! ## Agent layer (`backend/core/agent.py`) -/

/-- One entry of a price snapshot: the per-symbol feed fields the agent
reads (`price`, `change_24h`). -/
structure PriceData where
  price : ℚ
  change24h : ℚ
  deriving Repr, DecidableEq

/-- One chat message (`{"role": ..., "content": ...}`). -/
structure Msg where
  role : String
  content : String
  deriving Repr, DecidableEq

/-- The JSON values `json.loads` can produce. -/
inductive Json where
  | null
  | bool (b : Bool)
  | num (n : ℚ)
  | str (s : String)
  | arr (elems : List Json)
  | obj (fields : List (String × Json))

/-- The `d.get(key)` on a decision dict (`None`/non-dict has no fields). -/
def Json.getField : Json → String → Option Json
  | .obj fields, key => alookup fields key
  | _, _ => none

/-- The `d[key] = v` on a decision dict. -/
def Json.setField : Json → String → Json → Json
  | .obj fields, key, v => .obj (aset fields key v)
  | j, _, _ => j

def Json.isObj : Json → Bool
  | .obj _ => true
  | _ => false

/-- The `Portfolio.total_value` (portfolio.py lines 66–71): cash plus each
holding valued at the snapshot price, 0 when the symbol is unpriced. -/
def totalValue (st : PortfolioSt) (prices : List (String × PriceData)) : ℚ :=
  st.holdings.foldl
    (fun total sh =>
      total + sh.2.quantity * (((alookup prices sh.1).map PriceData.price).getD 0))
    st.cash

/-- The `build_market_context` (agent.py lines 95–123): the user-turn text.
Python `{:,.2f}`-style numeric formatting is rendered with plain
`toString`; no claim inspects the digits. -/
def buildMarketContext (prices : List (String × PriceData)) (port : PortfolioSt) : String :=
  let priceLines := prices.map fun sp =>
    let arrow := if 0 ≤ sp.2.change24h then "↑" else "↓"
    sp.1 ++ ": $" ++ toString sp.2.price ++ "  " ++ arrow ++ toString |sp.2.change24h| ++ "% 24h"
  let holdingLines :=
    if port.holdings.isEmpty then ["Holdings: none"]
    else "Holdings:" :: port.holdings.map fun sh =>
      let price := ((alookup prices sh.1).map PriceData.price).getD 0
      "  " ++ sh.1 ++ ": " ++ toString sh.2.quantity ++ " coins  worth $"
        ++ toString (sh.2.quantity * price) ++ "  (avg cost $" ++ toString sh.2.avg_cost ++ ")"
  String.intercalate "\n"
    (["=== MARKET PRICES ==="] ++ priceLines
      ++ ["", "=== YOUR PORTFOLIO ===", "Cash: $" ++ toString port.cash]
      ++ holdingLines
      ++ ["Total Portfolio Value: $" ++ toString (totalValue port prices)])

/-- The in-memory fields of an `Agent` object that the decision cycle
touches. -/
structure AgentSt where
  agentId : String
  name : String
  model : String
  mode : String
  allowance : ℚ
  goal : String
  tradeInterval : ℚ
  riskProfile : String
  maxDuration : Option ℚ
  lastRunAt : ℚ
  startedAt : Option ℚ
  running : Bool
  pendingDecision : Option Json
  lastThought : Option Json
  chatHistory : List Msg
  ledger : LedgerSt

/-- Failures that abort `Agent.think`: a transport exception from the
ollama client, a `json.JSONDecodeError` from `json.loads`, or the
`TypeError` from `decision["agent_id"] = ...` when the parsed JSON is not
an object.  The source defines no dedicated exception class; these are
the raw exceptions that propagate to the catch-all in `run_once`. -/
inductive ThinkErr where
  | transport
  | jsonDecode
  | notObject
  deriving Repr, DecidableEq

/-- The outcome of the ollama chat call inside `think`: either the call
raised, or it returned text (already fence-stripped) whose `json.loads`
result is `parsed` (`none` when parsing raises).  JSON parsing itself is
a stdlib call and is not re-implemented; `parsed` stands for its result
on `raw`. -/
inductive OracleReply where
  | failure
  | reply (raw : String) (parsed : Option Json)

/-- The `MAX_HISTORY_PAIRS` (agent.py line 25). -/
def maxHistoryPairs : Nat := 10

/-- The `self._chat_history[-max_msgs:]` trim (think, lines 197–200). -/
def trimHistory (hist : List Msg) : List Msg :=
  let maxMsgs := maxHistoryPairs * 2
  if hist.length > maxMsgs then hist.drop (hist.length - maxMsgs) else hist

/-- The `Agent.think` (lines 162–202).  The outbound message list (system
prompt + rolling history + user turn) only affects the oracle call, which
is abstracted as `reply`; the system-prompt construction is therefore not
modelled.  On success the decision gets `agent_id`/`timestamp` stamped and
the user/assistant pair is appended to the rolling history; every failure
path raises before those appends. -/
def think (st : AgentSt) (prices : List (String × PriceData)) (reply : OracleReply)
    (ts : String) : Except ThinkErr (AgentSt × Json) :=
  let context := buildMarketContext prices st.ledger.port
  let userMsg : Msg := ⟨"user", context⟩
  match reply with
  | .failure => .error .transport
  | .reply raw parsed =>
      match parsed with
      | none => .error .jsonDecode
      | some (.obj fields) =>
          let decision := Json.obj (aset (aset fields "agent_id" (.str st.agentId))
            "timestamp" (.str ts))
          .ok ({ st with
                  chatHistory := trimHistory (st.chatHistory ++ [userMsg, ⟨"assistant", raw⟩]) },
               decision)
      | some _ => .error .notObject

/-- Python `str.lower()` (ASCII, which is all the agent feeds it). -/
def strToLower (s : String) : String := ⟨s.data.map Char.toLower⟩

/-- Python `str.upper()` (ASCII, which is all the agent feeds it). -/
def strToUpper (s : String) : String := ⟨s.data.map Char.toUpper⟩

/-- The `decision.get("action", "hold")` (used un-lowered in the advisory
branch of `run_once`).  A non-string action would raise `AttributeError`
on `.lower()` in Python; that degenerate shape is modelled as the
default and exercised by no claim. -/
def decisionActionRaw (d : Json) : String :=
  match d.getField "action" with
  | some (.str s) => s
  | _ => "hold"

/-- The `decision.get("action", "hold").lower()` (execute_decision line 215). -/
def decisionAction (d : Json) : String :=
  strToLower (decisionActionRaw d)

/-- The `decision.get("symbol", "").upper()` (execute_decision line 247). -/
def decisionSymbol (d : Json) : String :=
  strToUpper
    (match d.getField "symbol" with
     | some (.str s) => s
     | _ => "")

/-- The `float(decision.get("quantity", 0))` (execute_decision line 248).
A string-encoded number would be parsed by `float()` in Python; only
numeric or missing quantities are modelled, as nothing else occurs in the
claims. -/
def decisionQuantity (d : Json) : ℚ :=
  match d.getField "quantity" with
  | some (.num q) => q
  | _ => 0

/-- The `decision.get("reasoning", "")` (execute_decision line 216). -/
def decisionReasoning (d : Json) : String :=
  match d.getField "reasoning" with
  | some (.str s) => s
  | _ => ""

/-- The `decision.get("timestamp", _utcnow())` (execute_decision line 217). -/
def decisionTimestamp (d : Json) (default : String) : String :=
  match d.getField "timestamp" with
  | some (.str s) => s
  | _ => default

/-- The `last_thought` dict built at execute_decision lines 220–226 and
at run_once lines 305–311. -/
def thoughtRecord (d : Json) (action timestamp : String) : Json :=
  .obj [("action", .str action),
        ("symbol", (d.getField "symbol").getD (.str "")),
        ("quantity", (d.getField "quantity").getD (.num 0)),
        ("reasoning", .str (decisionReasoning d)),
        ("timestamp", .str timestamp)]

/-- The `Agent.execute_decision` (lines 213–268).  Returns the new agent state
and the trade record (`None` for hold/no-op/rejected).  The `not price or
quantity <= 0 or not symbol` guard is Python truthiness: a missing or
zero price, a non-positive quantity, or an empty symbol make the decision
a silent no-op; a ledger `ValueError` is caught and also yields `None`. -/
def executeDecision (st : AgentSt) (decision : Json)
    (prices : List (String × PriceData)) (nowTs : String) : AgentSt × Option Trade :=
  let action := decisionAction decision
  let reasoning := decisionReasoning decision
  let timestamp := decisionTimestamp decision nowTs
  let st := { st with lastThought := some (thoughtRecord decision action timestamp) }
  if action = "hold" then
    ({ st with ledger := persistHold st.ledger reasoning }, none)
  else
    let symbol := decisionSymbol decision
    let quantity := decisionQuantity decision
    let priceOpt := (alookup prices symbol).map PriceData.price
    if priceOpt = none ∨ priceOpt = some 0 ∨ quantity ≤ 0 ∨ symbol = "" then
      (st, none)
    else
      match ledgerTrade st.ledger symbol action quantity (priceOpt.getD 0) reasoning "paper" with
      | .ok (led, tr) => ({ st with ledger := led }, some tr)
      | .error _ => (st, none)

/-- What a `run_once` call did: whether the oracle (`think`) was invoked
and whether a state notification (`on_thought`) was emitted. -/
structure RunRes where
  calledOracle : Bool
  emittedState : Bool
  deriving Repr, DecidableEq

/-- The auto-stop guard `if self.max_duration and (now - self.started_at)
>= self.max_duration` (run_once line 288).  Python truthiness: a
`max_duration` of `None` or `0` fails the first conjunct. -/
def maxDurationReached (maxDuration : Option ℚ) (startedAt now : ℚ) : Bool :=
  match maxDuration with
  | none => false
  | some d => decide (d ≠ 0) && decide (now - startedAt ≥ d)

/-- The `started_at` stamping of run_once lines 279–285: set (and
persist) on the first non-skipped cycle, untouched afterwards. -/
def stampStarted (st : AgentSt) (now : ℚ) : AgentSt :=
  match st.startedAt with
  | none => { st with startedAt := some now }
  | some _ => st

/-- The `Agent.run_once` (lines 270–317): empty-prices guard, throttle,
`started_at` stamping, max-duration auto-stop, think, then the
autonomous/advisory branch; a think failure is caught, logged and the
cycle abandoned (no state notification). -/
def runOnce (st : AgentSt) (now : ℚ) (ts : String)
    (prices : List (String × PriceData)) (reply : OracleReply) : AgentSt × RunRes :=
  if prices.isEmpty then (st, ⟨false, false⟩)
  else if now - st.lastRunAt < st.tradeInterval then (st, ⟨false, false⟩)
  else
    let st1 := stampStarted st now
    let started := st1.startedAt.getD now
    if maxDurationReached st1.maxDuration started now then
      ({ st1 with running := false }, ⟨false, true⟩)
    else
      let st2 := { st1 with lastRunAt := now }
      match think st2 prices reply ts with
      | .error _ => (st2, ⟨true, false⟩)
      | .ok (st3, decision) =>
          if st3.mode = "autonomous" then
            ((executeDecision st3 decision prices ts).1, ⟨true, true⟩)
          else if st3.mode = "advisory" then
            ({ st3 with
                lastThought := some (thoughtRecord decision (decisionActionRaw decision)
                  (decisionTimestamp decision ts)),
                pendingDecision := some decision }, ⟨true, true⟩)
          else (st3, ⟨true, true⟩)

/-! ## Agent-layer helper lemmas -/

@[simp] theorem stampStarted_chatHistory (st : AgentSt) (now : ℚ) :
    (stampStarted st now).chatHistory = st.chatHistory := by
  unfold stampStarted; cases st.startedAt <;> rfl

@[simp] theorem stampStarted_lastRunAt (st : AgentSt) (now : ℚ) :
    (stampStarted st now).lastRunAt = st.lastRunAt := by
  unfold stampStarted; cases st.startedAt <;> rfl

@[simp] theorem stampStarted_tradeInterval (st : AgentSt) (now : ℚ) :
    (stampStarted st now).tradeInterval = st.tradeInterval := by
  unfold stampStarted; cases st.startedAt <;> rfl

@[simp] theorem stampStarted_mode (st : AgentSt) (now : ℚ) :
    (stampStarted st now).mode = st.mode := by
  unfold stampStarted; cases st.startedAt <;> rfl

@[simp] theorem stampStarted_ledger (st : AgentSt) (now : ℚ) :
    (stampStarted st now).ledger = st.ledger := by
  unfold stampStarted; cases st.startedAt <;> rfl

@[simp] theorem stampStarted_pendingDecision (st : AgentSt) (now : ℚ) :
    (stampStarted st now).pendingDecision = st.pendingDecision := by
  unfold stampStarted; cases st.startedAt <;> rfl

@[simp] theorem stampStarted_running (st : AgentSt) (now : ℚ) :
    (stampStarted st now).running = st.running := by
  unfold stampStarted; cases st.startedAt <;> rfl

@[simp] theorem stampStarted_maxDuration (st : AgentSt) (now : ℚ) :
    (stampStarted st now).maxDuration = st.maxDuration := by
  unfold stampStarted; cases st.startedAt <;> rfl

theorem stampStarted_of_some (st : AgentSt) (now s : ℚ) (h : st.startedAt = some s) :
    stampStarted st now = st := by
  unfold stampStarted; rw [h]

/-- Whether `think` fails depends only on the oracle reply, not on the
agent state, the prices or the timestamp. -/
theorem think_isOk_congr (st st2 : AgentSt) (ps ps2 : List (String × PriceData))
    (r : OracleReply) (ts ts2 : String) :
    (think st ps r ts).isOk = (think st2 ps2 r ts2).isOk := by
  cases r with
  | failure => rfl
  | reply raw parsed =>
      cases parsed with
      | none => rfl
      | some j => cases j <;> rfl

/-- A successful `think` only touches the rolling chat history. -/
theorem think_ok_preserves {st : AgentSt} {ps : List (String × PriceData)}
    {r : OracleReply} {ts : String} {st' : AgentSt} {d : Json}
    (h : think st ps r ts = .ok (st', d)) :
    st'.lastRunAt = st.lastRunAt ∧ st'.tradeInterval = st.tradeInterval ∧
    st'.mode = st.mode ∧ st'.ledger = st.ledger ∧
    st'.pendingDecision = st.pendingDecision ∧ st'.running = st.running := by
  cases r with
  | failure => simp [think] at h
  | reply raw parsed =>
      cases parsed with
      | none => simp [think] at h
      | some j =>
          cases j with
          | obj fields =>
              simp only [think, Except.ok.injEq, Prod.mk.injEq] at h
              obtain ⟨h1, _⟩ := h
              subst h1
              exact ⟨rfl, rfl, rfl, rfl, rfl, rfl⟩
          | null => simp [think] at h
          | bool b => simp [think] at h
          | num n => simp [think] at h
          | str s => simp [think] at h
          | arr elems => simp [think] at h

/-- The `execute_decision` never touches the throttle/timer fields or the
rolling history. -/
theorem executeDecision_preserves (st : AgentSt) (d : Json)
    (ps : List (String × PriceData)) (ts : String) :
    (executeDecision st d ps ts).1.lastRunAt = st.lastRunAt ∧
    (executeDecision st d ps ts).1.tradeInterval = st.tradeInterval ∧
    (executeDecision st d ps ts).1.chatHistory = st.chatHistory ∧
    (executeDecision st d ps ts).1.mode = st.mode ∧
    (executeDecision st d ps ts).1.running = st.running := by
  simp only [executeDecision]
  split
  · exact ⟨rfl, rfl, rfl, rfl, rfl⟩
  · split
    · exact ⟨rfl, rfl, rfl, rfl, rfl⟩
    · split
      · exact ⟨rfl, rfl, rfl, rfl, rfl⟩
      · exact ⟨rfl, rfl, rfl, rfl, rfl⟩

/-- A throttled cycle (`now − last_run_at < trade_interval`) is a no-op:
same state back, no oracle call, no notification. -/
theorem runOnce_skip_throttled (s : AgentSt) (now : ℚ) (ts : String)
    (ps : List (String × PriceData)) (r : OracleReply)
    (h : now - s.lastRunAt < s.tradeInterval) :
    runOnce s now ts ps r = (s, ⟨false, false⟩) := by
  simp only [runOnce]
  by_cases hp : ps.isEmpty
  · rw [if_pos hp]
  · rw [if_neg hp, if_pos h]

/-- A cycle that did invoke the oracle stamped `last_run_at := now` and
left the trade interval unchanged. -/
theorem runOnce_calledOracle_fields (st : AgentSt) (now : ℚ) (ts : String)
    (ps : List (String × PriceData)) (r : OracleReply)
    (h : (runOnce st now ts ps r).2.calledOracle = true) :
    (runOnce st now ts ps r).1.lastRunAt = now ∧
    (runOnce st now ts ps r).1.tradeInterval = st.tradeInterval := by
  simp only [runOnce] at h ⊢
  by_cases hp : ps.isEmpty
  · rw [if_pos hp] at h ⊢
    simp at h
  · rw [if_neg hp] at h ⊢
    by_cases hth : now - st.lastRunAt < st.tradeInterval
    · rw [if_pos hth] at h ⊢
      simp at h
    · rw [if_neg hth] at h ⊢
      by_cases hmd : maxDurationReached (stampStarted st now).maxDuration
          ((stampStarted st now).startedAt.getD now) now = true
      · rw [if_pos hmd] at h ⊢
        simp at h
      · rw [if_neg hmd] at h ⊢
        cases hthink : think { stampStarted st now with lastRunAt := now } ps r ts with
        | error e =>
            simp only [hthink]
            simp
        | ok res =>
            obtain ⟨st3, d⟩ := res
            have hpre := think_ok_preserves hthink
            simp only [hthink]
            by_cases hmode : st3.mode = "autonomous"
            · rw [if_pos hmode]
              have hed := executeDecision_preserves st3 d ps ts
              refine ⟨?_, ?_⟩
              · rw [hed.1, hpre.1]
              · rw [hed.2.1, hpre.2.1]
                exact stampStarted_tradeInterval st now
            · rw [if_neg hmode]
              by_cases hadv : st3.mode = "advisory"
              · rw [if_pos hadv]
                refine ⟨hpre.1, ?_⟩
                rw [hpre.2.1]
                exact stampStarted_tradeInterval st now
              · rw [if_neg hadv]
                refine ⟨hpre.1, ?_⟩
                rw [hpre.2.1]
                exact stampStarted_tradeInterval st now

/-! ## Concrete fixtures for witnesses and counterexamples -/

/-- A freshly created autonomous agent (allowance 10000, 60 s interval). -/
def testAgent : AgentSt :=
  { agentId := "a1", name := "alpha", model := "m", mode := "autonomous",
    allowance := 10000, goal := "", tradeInterval := 60, riskProfile := "neutral",
    maxDuration := none, lastRunAt := 0, startedAt := none, running := true,
    pendingDecision := none, lastThought := none, chatHistory := [],
    ledger := initLedger 10000 }

/-- An advisory agent whose `max_duration` is set to `0` and whose session
started at time 0. -/
def c9Agent : AgentSt :=
  { testAgent with
    mode := "advisory"
    maxDuration := some 0
    startedAt := some 0
    lastRunAt := 0
    tradeInterval := 1 }

/-- An agent with `max_duration = 60` whose session started at time 0. -/
def c9bAgent : AgentSt :=
  { testAgent with
    maxDuration := some 60
    startedAt := some 0
    lastRunAt := 0
    tradeInterval := 1 }

def c9Prices : List (String × PriceData) := [("BTC", ⟨100, 0⟩)]

/-- An oracle reply whose text parses to the empty JSON object. -/
def emptyObjReply : OracleReply := .reply "\x7b\x7d" (some (Json.obj []))

/-! ## Claims C6–C10: the agent -/

/-- C6: a buy or sell decision with non-positive quantity, an empty
symbol, or a symbol absent from the price snapshot is a silent no-op:
`execute_decision` returns no trade and the ledger (cash, holdings and
the persisted trade log) is untouched.  No exception reaches the caller:
the embedding of `execute_decision` is a total function. -/
theorem C6_malformed_decision_noop (st : AgentSt) (decision : Json)
    (prices : List (String × PriceData)) (ts : String)
    (haction : decisionAction decision = "buy" ∨ decisionAction decision = "sell")
    (hbad : decisionQuantity decision ≤ 0 ∨ decisionSymbol decision = "" ∨
        alookup prices (decisionSymbol decision) = none) :
    (executeDecision st decision prices ts).2 = none ∧
    (executeDecision st decision prices ts).1.ledger = st.ledger := by
  have hnh : ¬ (decisionAction decision = "hold") := by
    rcases haction with h | h <;> rw [h] <;> decide
  have hguard : (alookup prices (decisionSymbol decision)).map PriceData.price = none
      ∨ (alookup prices (decisionSymbol decision)).map PriceData.price = some 0
      ∨ decisionQuantity decision ≤ 0 ∨ decisionSymbol decision = "" := by
    rcases hbad with h | h | h
    · right; right; left; exact h
    · right; right; right; exact h
    · left; rw [h]; rfl
  simp only [executeDecision]
  rw [if_neg hnh, if_pos hguard]
  exact ⟨rfl, rfl⟩

/-- C6 witness: a sell of −1 BTC (non-positive quantity) with BTC priced
is discarded with no trade and an unchanged ledger. -/
theorem C6_malformed_decision_noop_witness :
    (executeDecision testAgent
        (Json.obj [("action", .str "sell"), ("symbol", .str "btc"),
                   ("quantity", .num (-1))]) c9Prices "t").2 = none ∧
    (executeDecision testAgent
        (Json.obj [("action", .str "sell"), ("symbol", .str "btc"),
                   ("quantity", .num (-1))]) c9Prices "t").1.ledger = testAgent.ledger :=
  C6_malformed_decision_noop testAgent _ c9Prices "t" (Or.inr rfl)
    (Or.inl (show (-1 : ℚ) ≤ 0 by norm_num))

/-- C7 counterexample: `think` never checks for the required decision
fields.  A reply whose text `"{}"` parses to the empty JSON object —
missing `action`, `symbol`, `quantity` and `reasoning` — is returned as a
successful decision (only `agent_id`/`timestamp` get stamped in), not
raised as an error as the claim requires. -/
theorem C7_counterexample :
    (think testAgent [] emptyObjReply "t").isOk = true ∧
    (think testAgent [] emptyObjReply "t").toOption.map
        (fun res => (Prod.snd res).getField "action") = some none := by
  exact ⟨rfl, rfl⟩

/-- C7 (amended): a transport failure, a reply that is not valid JSON, or
valid JSON that is not an object propagates an error out of `think` (the
raw exception — the source defines no `OracleDecisionError` class); but a
JSON *object* missing required fields is NOT an error: it is returned as
the decision, its absent fields defaulted downstream. -/
theorem C7_parse_failure_propagates (st : AgentSt)
    (prices : List (String × PriceData)) (raw : String) (parsed : Option Json)
    (ts : String) :
    (think st prices .failure ts = .error .transport) ∧
    (parsed = none → think st prices (.reply raw parsed) ts = .error .jsonDecode) ∧
    (∀ j, parsed = some j → j.isObj = false →
        think st prices (.reply raw parsed) ts = .error .notObject) ∧
    (∀ j, parsed = some j → j.isObj = true →
        (think st prices (.reply raw parsed) ts).isOk = true) := by
  refine ⟨rfl, ?_, ?_, ?_⟩
  · intro h; rw [h]; rfl
  · intro j hj hobj
    rw [hj]
    cases j
    all_goals first
      | rfl
      | simp [Json.isObj] at hobj
  · intro j hj hobj
    rw [hj]
    cases j
    all_goals first
      | rfl
      | simp [Json.isObj] at hobj

/-- C7 witness: concrete failures — transport error, unparseable text,
a JSON number — each abort `think` with the corresponding error. -/
theorem C7_parse_failure_propagates_witness :
    (think testAgent [] .failure "t" = .error .transport) ∧
    (think testAgent [] (.reply "no json here" none) "t" = .error .jsonDecode) ∧
    (think testAgent [] (.reply "3" (some (.num 3))) "t" = .error .notObject) :=
  ⟨(C7_parse_failure_propagates testAgent [] "x" none "t").1,
   (C7_parse_failure_propagates testAgent [] "no json here" none "t").2.1 rfl,
   (C7_parse_failure_propagates testAgent [] "3" (some (.num 3)) "t").2.2.1
     (.num 3) rfl rfl⟩

/-- C8: a cycle with `now − last_run_at < trade_interval` is a pure no-op
(state returned unchanged, no oracle call, no notification), and two
cycles less than `trade_interval` apart invoke the oracle at most once. -/
theorem C8_oracle_at_most_once (st : AgentSt) (t1 t2 : ℚ) (ts1 ts2 : String)
    (prices : List (String × PriceData)) (r1 r2 : OracleReply)
    (hclose : t2 - t1 < st.tradeInterval) :
    (∀ (s : AgentSt) (now : ℚ) (ts : String) (ps : List (String × PriceData))
        (r : OracleReply), now - s.lastRunAt < s.tradeInterval →
          runOnce s now ts ps r = (s, ⟨false, false⟩)) ∧
    ¬ ((runOnce st t1 ts1 prices r1).2.calledOracle = true ∧
       (runOnce (runOnce st t1 ts1 prices r1).1 t2 ts2 prices r2).2.calledOracle = true) := by
  refine ⟨fun s now ts ps r h => runOnce_skip_throttled s now ts ps r h, ?_⟩
  rintro ⟨h1, h2⟩
  obtain ⟨hlr, hti⟩ := runOnce_calledOracle_fields st t1 ts1 prices r1 h1
  have hth2 : t2 - (runOnce st t1 ts1 prices r1).1.lastRunAt
      < (runOnce st t1 ts1 prices r1).1.tradeInterval := by
    rw [hlr, hti]; exact hclose
  rw [runOnce_skip_throttled _ t2 ts2 prices r2 hth2] at h2
  simp at h2

/-- C8 witness: two cycles 30 s apart with a 60 s interval never reach
the oracle twice. -/
theorem C8_oracle_at_most_once_witness :
    ¬ ((runOnce testAgent 100 "a" c9Prices .failure).2.calledOracle = true ∧
       (runOnce (runOnce testAgent 100 "a" c9Prices .failure).1 130 "b"
          c9Prices .failure).2.calledOracle = true) :=
  (C8_oracle_at_most_once testAgent 100 130 "a" "b" c9Prices .failure .failure
    (by norm_num [testAgent])).2

/-- C9 counterexample: the auto-stop guard is `if self.max_duration and
...` — Python truthiness — so an agent whose `max_duration` is SET to `0`
and exceeded (`now − started_at = 5 ≥ 0 = max_duration`, throttle passed,
prices non-empty) is not stopped: the cycle still calls the oracle and
`running` stays `true`, contradicting the claim as stated. -/
theorem C9_counterexample :
    c9Agent.maxDuration = some 0 ∧ c9Agent.startedAt = some 0 ∧
    ((5 : ℚ) - 0 ≥ 0) ∧
    (runOnce c9Agent 5 "t" c9Prices emptyObjReply).2.calledOracle = true ∧
    (runOnce c9Agent 5 "t" c9Prices emptyObjReply).1.running = true := by
  have hth : ¬ ((5 : ℚ) - c9Agent.lastRunAt < c9Agent.tradeInterval) := by
    norm_num [c9Agent, testAgent]
  have hmd : ¬ (maxDurationReached c9Agent.maxDuration
      (c9Agent.startedAt.getD 5) 5 = true) := by
    simp [maxDurationReached, c9Agent, testAgent]
  refine ⟨rfl, rfl, by norm_num, ?_, ?_⟩
  all_goals
    simp only [runOnce]
    rw [if_neg (by decide : ¬ (c9Prices.isEmpty = true)), if_neg hth,
      stampStarted_of_some c9Agent 5 0 rfl, if_neg hmd]
    rfl

/-- C9 (amended): with non-empty prices, the throttle passed, a session
already started and a NONZERO `max_duration` exceeded, `run_once` flips
`running` to false, emits the state notification, performs no oracle call
and leaves every other field — ledger, pending decision, history —
untouched. -/
theorem C9_max_duration_stops (st : AgentSt) (now : ℚ) (ts : String)
    (prices : List (String × PriceData)) (r : OracleReply) (d s : ℚ)
    (hp : prices ≠ [])
    (hth : ¬ (now - st.lastRunAt < st.tradeInterval))
    (hdur : st.maxDuration = some d) (hd : d ≠ 0)
    (hstart : st.startedAt = some s) (helapsed : now - s ≥ d) :
    runOnce st now ts prices r = ({ st with running := false }, ⟨false, true⟩) := by
  have hpe : ¬ (prices.isEmpty = true) := by
    cases prices with
    | nil => exact absurd rfl hp
    | cons a l => simp
  have hreach : maxDurationReached st.maxDuration (st.startedAt.getD now) now = true := by
    rw [hstart, hdur]
    simp only [maxDurationReached, Option.getD_some, Bool.and_eq_true, decide_eq_true_eq]
    exact ⟨hd, helapsed⟩
  simp only [runOnce]
  rw [if_neg hpe, if_neg hth, stampStarted_of_some st now s hstart, if_pos hreach]

/-- C9 witness: the §8 instance from the spec — `max_duration = 60`, session
started 61 s ago — stops the agent with no oracle call. -/
theorem C9_max_duration_stops_witness :
    runOnce c9bAgent 61 "t" c9Prices .failure
      = ({ c9bAgent with running := false }, ⟨false, true⟩) :=
  C9_max_duration_stops c9bAgent 61 "t" c9Prices .failure 60 0
    (by decide) (by norm_num [c9bAgent, testAgent]) rfl (by norm_num) rfl (by norm_num)

/-- C10: the rolling chat history is appended to only after a successful
parse: when `think` fails (transport error, bad JSON, non-object JSON)
the cycle leaves the history exactly as it was, and when it succeeds the
history is the old one plus exactly the user turn and the assistant
reply, trimmed to the last `MAX_HISTORY_PAIRS` pairs. -/
theorem C10_history_only_after_parse (st : AgentSt) (now : ℚ) (ts : String)
    (prices : List (String × PriceData)) (reply : OracleReply) :
    (∀ e, think st prices reply ts = .error e →
        (runOnce st now ts prices reply).1.chatHistory = st.chatHistory) ∧
    (∀ raw parsed st' d, reply = .reply raw parsed →
        think st prices reply ts = .ok (st', d) →
        st'.chatHistory = trimHistory (st.chatHistory
          ++ [⟨"user", buildMarketContext prices st.ledger.port⟩,
              ⟨"assistant", raw⟩])) := by
  constructor
  · intro e he
    by_cases hp : prices.isEmpty
    · simp only [runOnce]
      rw [if_pos hp]
    · by_cases hth : now - st.lastRunAt < st.tradeInterval
      · rw [runOnce_skip_throttled _ _ _ _ _ hth]
      · simp only [runOnce]
        rw [if_neg hp, if_neg hth]
        by_cases hmd : maxDurationReached (stampStarted st now).maxDuration
            ((stampStarted st now).startedAt.getD now) now = true
        · rw [if_pos hmd]
          simp
        · rw [if_neg hmd]
          have hko : (think { stampStarted st now with lastRunAt := now }
              prices reply ts).isOk = false := by
            rw [think_isOk_congr _ st _ prices _ _ ts, he]
            rfl
          cases hthink : think { stampStarted st now with lastRunAt := now }
              prices reply ts with
          | ok res =>
              rw [hthink] at hko
              simp [Except.isOk, Except.toBool] at hko
          | error e2 =>
              simp only [hthink]
              simp
  · intro raw parsed st' d hr hok
    subst hr
    cases parsed with
    | none => simp [think] at hok
    | some j =>
        cases j with
        | obj fields =>
            simp only [think, Except.ok.injEq, Prod.mk.injEq] at hok
            obtain ⟨h1, _⟩ := hok
            subst h1
            rfl
        | null => simp [think] at hok
        | bool b => simp [think] at hok
        | num n => simp [think] at hok
        | str s => simp [think] at hok
        | arr elems => simp [think] at hok

/-- C10 witness: a failed parse at time 100 leaves the history empty, and
a successful parse returns the two appended messages. -/
theorem C10_history_only_after_parse_witness :
    (runOnce testAgent 100 "t" c9Prices (.reply "oops" none)).1.chatHistory
      = testAgent.chatHistory ∧
    (∀ st' d, think testAgent c9Prices emptyObjReply "t" = .ok (st', d) →
        st'.chatHistory = trimHistory (testAgent.chatHistory
          ++ [⟨"user", buildMarketContext c9Prices testAgent.ledger.port⟩,
              ⟨"assistant", "\x7b\x7d"⟩])) :=
  ⟨(C10_history_only_after_parse testAgent 100 "t" c9Prices (.reply "oops" none)).1
      .jsonDecode rfl,
   fun st' d hok => (C10_history_only_after_parse testAgent 100 "t" c9Prices
      emptyObjReply).2 "\x7b\x7d" (some (Json.obj [])) st' d rfl hok⟩

end PhantomEx
